import Mathlib

set_option maxRecDepth 100000

/-!
Verification of the file-change tracker (`src/kimi_mcp/file_tracker.py`).

The tracker snapshots a working directory (mapping root-relative paths to
MD5 fingerprints of file contents), diffs an initial and a final snapshot
into created/modified path lists, and materialises text contents of files
(with a placeholder for binary files).

The embedding below models:
  * bytes as `Nat` values (each `< 256` in well-formed inputs),
  * a directory tree as the inductive `FSEntry`,
  * a byte-level MD5 (`md5Digest`/`md5Hex`), mirroring `hashlib.md5`
    followed by `hexdigest()`,
  * file contents as `Option (List Nat)`: `none` models a file whose open
    or read raises (permission error, vanished mid-walk), `some bytes`
    a readable file with those bytes.
Streaming `md5.update` over consecutive 8 KiB chunks of a file hashes
exactly the concatenation of the chunks, i.e. the file's full byte
content, so `calculate_checksum` is embedded as MD5 of the whole content.
-/

/-! ### MD5 (`hashlib.md5` + `hexdigest`) -/

/-- Truncation to a 32-bit machine word. -/
def w32 (n : Nat) : Nat := n % 4294967296

/-- Left rotation of a 32-bit word. -/
def rotl32 (x s : Nat) : Nat := w32 (Nat.lor (x <<< s) (x >>> (32 - s)))

/-- The 64 MD5 round constants `K[i] = floor(2^32 * |sin(i+1)|)`. -/
def md5K : List Nat :=
  [0xd76aa478, 0xe8c7b756, 0x242070db, 0xc1bdceee,
   0xf57c0faf, 0x4787c62a, 0xa8304613, 0xfd469501,
   0x698098d8, 0x8b44f7af, 0xffff5bb1, 0x895cd7be,
   0x6b901122, 0xfd987193, 0xa679438e, 0x49b40821,
   0xf61e2562, 0xc040b340, 0x265e5a51, 0xe9b6c7aa,
   0xd62f105d, 0x02441453, 0xd8a1e681, 0xe7d3fbc8,
   0x21e1cde6, 0xc33707d6, 0xf4d50d87, 0x455a14ed,
   0xa9e3e905, 0xfcefa3f8, 0x676f02d9, 0x8d2a4c8a,
   0xfffa3942, 0x8771f681, 0x6d9d6122, 0xfde5380c,
   0xa4beea44, 0x4bdecfa9, 0xf6bb4b60, 0xbebfbc70,
   0x289b7ec6, 0xeaa127fa, 0xd4ef3085, 0x04881d05,
   0xd9d4d039, 0xe6db99e5, 0x1fa27cf8, 0xc4ac5665,
   0xf4292244, 0x432aff97, 0xab9423a7, 0xfc93a039,
   0x655b59c3, 0x8f0ccc92, 0xffeff47d, 0x85845dd1,
   0x6fa87e4f, 0xfe2ce6e0, 0xa3014314, 0x4e0811a1,
   0xf7537e82, 0xbd3af235, 0x2ad7d2bb, 0xeb86d391]

/-- The 64 per-round left-rotation amounts. -/
def md5S : List Nat :=
  [7, 12, 17, 22, 7, 12, 17, 22, 7, 12, 17, 22, 7, 12, 17, 22,
   5, 9, 14, 20, 5, 9, 14, 20, 5, 9, 14, 20, 5, 9, 14, 20,
   4, 11, 16, 23, 4, 11, 16, 23, 4, 11, 16, 23, 4, 11, 16, 23,
   6, 10, 15, 21, 6, 10, 15, 21, 6, 10, 15, 21, 6, 10, 15, 21]

/-- Little-endian word value of a byte list. -/
def leWord (bs : List Nat) : Nat := bs.foldr (fun b acc => b + 256 * acc) 0

/-- The MD5 nonlinear function of round `i` applied to words `b`, `c`, `d`. -/
def md5F (i b c d : Nat) : Nat :=
  if i < 16 then Nat.lor (Nat.land b c) (Nat.land (Nat.xor b 0xffffffff) d)
  else if i < 32 then Nat.lor (Nat.land d b) (Nat.land (Nat.xor d 0xffffffff) c)
  else if i < 48 then Nat.xor b (Nat.xor c d)
  else Nat.xor c (Nat.lor b (Nat.xor d 0xffffffff))

/-- The message-word index used by round `i`. -/
def md5G (i : Nat) : Nat :=
  if i < 16 then i
  else if i < 32 then (5 * i + 1) % 16
  else if i < 48 then (3 * i + 5) % 16
  else (7 * i) % 16

/-- One MD5 round on state `(a, b, c, d)` with message words `M`. -/
def md5Round (M : List Nat) (st : Nat × Nat × Nat × Nat) (i : Nat) :
    Nat × Nat × Nat × Nat :=
  let f := w32 (md5F i st.2.1 st.2.2.1 st.2.2.2 + st.1 + md5K.getD i 0 +
                M.getD (md5G i) 0)
  (st.2.2.2, w32 (st.2.1 + rotl32 f (md5S.getD i 0)), st.2.1, st.2.2.1)

/-- Process one 64-byte block: 64 rounds, then add into the running state. -/
def md5ProcessBlock (st : Nat × Nat × Nat × Nat) (block : List Nat) :
    Nat × Nat × Nat × Nat :=
  let M := (List.range 16).map (fun j => leWord ((block.drop (4 * j)).take 4))
  let r := (List.range 64).foldl (md5Round M) st
  (w32 (st.1 + r.1), w32 (st.2.1 + r.2.1), w32 (st.2.2.1 + r.2.2.1),
   w32 (st.2.2.2 + r.2.2.2))

/-- MD5 padding: a `0x80` byte, zeros to 56 mod 64, then the bit length
as a 64-bit little-endian quantity. -/
def md5Pad (msg : List Nat) : List Nat :=
  msg ++ [0x80] ++ List.replicate ((119 - msg.length % 64) % 64) 0 ++
    (List.range 8).map (fun i => ((msg.length * 8) >>> (8 * i)) % 256)

/-- The MD5 initial state. -/
def md5Init : Nat × Nat × Nat × Nat :=
  (0x67452301, 0xefcdab89, 0x98badcfe, 0x10325476)

/-- Serialize a 32-bit word as four little-endian bytes. -/
def wordLE (w : Nat) : List Nat :=
  [w % 256, w / 256 % 256, w / 65536 % 256, w / 16777216 % 256]

/-- The 16-byte MD5 digest of a byte string. -/
def md5Digest (msg : List Nat) : List Nat :=
  let padded := md5Pad msg
  let blocks := (List.range (padded.length / 64)).map
    (fun i => (padded.drop (64 * i)).take 64)
  let r := blocks.foldl md5ProcessBlock md5Init
  wordLE r.1 ++ wordLE r.2.1 ++ wordLE r.2.2.1 ++ wordLE r.2.2.2

/-- The sixteen lowercase hexadecimal digit characters. -/
def hexChars : List Char := "0123456789abcdef".data

/-- The lowercase hex digit of `n % 16`. -/
def hexChar (n : Nat) : Char := hexChars.getD (n % 16) '0'

/-- A byte rendered as two lowercase hex digits (`%02x`). -/
def byteHex (b : Nat) : List Char := [hexChar (b / 16), hexChar b]

/-- Model of `hashlib.md5(msg).hexdigest()`: the digest as a lowercase hex string. -/
def md5Hex (msg : List Nat) : String :=
  String.mk (((md5Digest msg).map byteHex).flatten)

/-- Model of `FileTracker.calculate_checksum`: MD5 hex digest of the file's full byte
content; on any read error (modelled as content `none`) it returns `""`
instead of raising. -/
def calculate_checksum : Option (List Nat) → String
  | none => ""
  | some bytes => md5Hex bytes

/-! ### The filesystem model and the snapshot walk -/

/-- A directory tree: a file carries its name and its byte content
(`none` models a file whose open/read raises), a directory carries its
name and its listed entries. -/
inductive FSEntry where
  | file (name : String) (content : Option (List Nat))
  | dir (name : String) (entries : List FSEntry)

/-- The fixed directory-name ignore set (`ignore_patterns` in `snapshot`). -/
def ignore_patterns : List String :=
  [".git", "__pycache__", ".venv", ".DS_Store", "node_modules"]

/-- The fixed ignored file suffixes (`ignore_extensions` in `snapshot`). -/
def ignore_extensions : List String := [".pyc"]

/-- Join a relative-path accumulator and an entry name, as
`Path(root) / file` rendered relative to the walk root is joined. -/
def relPath (pre n : String) : String :=
  if pre = "" then n else pre ++ "/" ++ n

/-- Suffix test on strings, the semantics of `str.endswith`: the last
`post.length` characters of `s` equal `post`. -/
def strEndsWith (s post : String) : Bool :=
  s.data.drop (s.data.length - post.data.length) == post.data

/-- Model of `any(file.endswith(ext) for ext in ignore_extensions)`. -/
def skipFile (n : String) : Bool :=
  ignore_extensions.any (fun ext => strEndsWith n ext)

/-- The per-directory file pass of `os.walk`: each plain file not ending
in an ignored extension whose checksum computed successfully is recorded
under its root-relative path (`if checksum: snapshot[str(rel_path)] = ...`). -/
def snapFiles (pre : String) : List FSEntry → List (String × String)
  | [] => []
  | FSEntry.file n c :: rest =>
      (if skipFile n then []
       else if calculate_checksum c = "" then []
       else [(relPath pre n, calculate_checksum c)]) ++ snapFiles pre rest
  | FSEntry.dir _ _ :: rest => snapFiles pre rest

/-- The recursive descent of `os.walk` after
`dirs[:] = [d for d in dirs if d not in ignore_patterns]`: every
non-ignored subdirectory contributes its own files and, recursively, its
subdirectories; ignored directories are pruned with all descendants. -/
def walkSubdirs (pre : String) : List FSEntry → List (String × String)
  | [] => []
  | FSEntry.file _ _ :: rest => walkSubdirs pre rest
  | FSEntry.dir n es :: rest =>
      (if ignore_patterns.contains n then []
       else snapFiles (relPath pre n) es ++ walkSubdirs (relPath pre n) es) ++
      walkSubdirs pre rest

/-- The full walk from a directory with entries `entries`, accumulated
relative path `pre`: files of this directory, then the pruned recursion. -/
def snapshotWalk (pre : String) (entries : List FSEntry) :
    List (String × String) :=
  snapFiles pre entries ++ walkSubdirs pre entries

/-! ### The tracker -/

/-- State of a `FileTracker`: a working directory (modelled by its entry tree) and
the two stored snapshots. Snapshots are association lists in insertion
order, modelling the Python `dict`s. -/
structure FileTracker where
  working_dir : List FSEntry
  initial_state : List (String × String)
  final_state : List (String × String)

/-- Model of `FileTracker.__init__`: both stored snapshots start empty. -/
def FileTracker.init (wd : List FSEntry) : FileTracker := ⟨wd, [], []⟩

/-- Model of `FileTracker.snapshot`: walk the working directory. -/
def FileTracker.snapshot (t : FileTracker) : List (String × String) :=
  snapshotWalk "" t.working_dir

/-- The `snapshot` method as a state transformer: it reads `self.working_dir`
and builds a fresh local dict; it assigns no attribute of `self`. -/
def FileTracker.snapshotOp (t : FileTracker) :
    FileTracker × List (String × String) :=
  (t, t.snapshot)

/-- Model of `FileTracker.take_initial_snapshot`: store a fresh walk as the
initial state; the final state and working directory are untouched. -/
def FileTracker.take_initial_snapshot (t : FileTracker) : FileTracker :=
  ⟨t.working_dir, t.snapshot, t.final_state⟩

/-- Model of `FileTracker.take_final_snapshot`: store a fresh walk as the final
state; the initial state and working directory are untouched. -/
def FileTracker.take_final_snapshot (t : FileTracker) : FileTracker :=
  ⟨t.working_dir, t.initial_state, t.snapshot⟩

/-- Model of `FileTracker.detect_changes` on explicit snapshot arguments: one pass
over the final state's keys collecting those absent from the initial
state, one pass collecting those present in both with differing stored
fingerprints. -/
def detectChangesOn (initial final : List (String × String)) :
    List String × List String :=
  ((final.map Prod.fst).filter (fun k => (initial.lookup k).isNone),
   (final.map Prod.fst).filter (fun k =>
      match initial.lookup k, final.lookup k with
      | some v1, some v2 => v1 != v2
      | _, _ => false))

/-- Model of `FileTracker.detect_changes` on the stored states. -/
def FileTracker.detect_changes (t : FileTracker) : List String × List String :=
  detectChangesOn t.initial_state t.final_state

/-- The `detect_changes` method as a state transformer: it only reads the
two stored snapshots. -/
def FileTracker.detect_changesOp (t : FileTracker) :
    FileTracker × (List String × List String) :=
  (t, t.detect_changes)

/-! ### Reading file contents -/

/-- The fixed placeholder recorded for binary files. -/
def binaryPlaceholder : String := "[Binary file, not displayed]"

/-- Model of `FileTracker.is_binary_file` applied to a file's readable content:
a null byte within the first 8192 bytes classifies the file as binary;
if the open/read raises (content `none`) the method returns `False`. -/
def is_binary_file : Option (List Nat) → Bool
  | none => false
  | some bytes => (bytes.take 8192).contains 0

/-- A continuation byte `0x80..0xBF`. -/
def utf8Cont (b : Nat) : Bool := 0x80 ≤ b && b ≤ 0xBF

/-- Strict UTF-8 decoding of a byte string into code points, as Python's
`utf-8` codec with `errors="strict"`: rejects truncated sequences,
overlong encodings, surrogates and values above `U+10FFFF`; `none`
models a raised `UnicodeDecodeError`. -/
def utf8Decode : List Nat → Option (List Char)
  | [] => some []
  | b :: rest =>
    if b < 0x80 then
      (utf8Decode rest).map (fun cs => Char.ofNat b :: cs)
    else if 0xC2 ≤ b && b ≤ 0xDF then
      match rest with
      | b1 :: rest1 =>
        if utf8Cont b1 then
          (utf8Decode rest1).map
            (fun cs => Char.ofNat ((b - 0xC0) * 0x40 + (b1 - 0x80)) :: cs)
        else none
      | [] => none
    else if 0xE0 ≤ b && b ≤ 0xEF then
      match rest with
      | b1 :: b2 :: rest2 =>
        let ok1 :=
          if b == 0xE0 then 0xA0 ≤ b1 && b1 ≤ 0xBF
          else if b == 0xED then 0x80 ≤ b1 && b1 ≤ 0x9F
          else utf8Cont b1
        if ok1 && utf8Cont b2 then
          (utf8Decode rest2).map (fun cs =>
            Char.ofNat ((b - 0xE0) * 0x1000 + (b1 - 0x80) * 0x40 + (b2 - 0x80))
              :: cs)
        else none
      | _ => none
    else if 0xF0 ≤ b && b ≤ 0xF4 then
      match rest with
      | b1 :: b2 :: b3 :: rest3 =>
        let ok1 :=
          if b == 0xF0 then 0x90 ≤ b1 && b1 ≤ 0xBF
          else if b == 0xF4 then 0x80 ≤ b1 && b1 ≤ 0x8F
          else utf8Cont b1
        if ok1 && utf8Cont b2 && utf8Cont b3 then
          (utf8Decode rest3).map (fun cs =>
            Char.ofNat ((b - 0xF0) * 0x40000 + (b1 - 0x80) * 0x1000 +
              (b2 - 0x80) * 0x40 + (b3 - 0x80)) :: cs)
        else none
      | _ => none
    else none

/-- Latin-1 decoding: every byte maps to the code point of its value,
so it never fails. -/
def latin1Decode (bs : List Nat) : List Char := bs.map Char.ofNat

/-- Universal-newline translation performed by text-mode `open(..., "r")`:
`\r\n` and lone `\r` both become `\n`. -/
def univNewlines : List Char → List Char
  | [] => []
  | '\r' :: '\n' :: rest => '\n' :: univNewlines rest
  | '\r' :: rest => '\n' :: univNewlines rest
  | c :: rest => c :: univNewlines rest

/-- Split a relative path into its `/`-separated segments, modelling how
`self.working_dir / file_path` descends one directory per segment. -/
def splitSlashAux : List Char → List Char → List String
  | [], acc => [String.mk acc.reverse]
  | '/' :: rest, acc => String.mk acc.reverse :: splitSlashAux rest []
  | c :: rest, acc => splitSlashAux rest (c :: acc)

/-- Path segments of a relative path string. -/
def splitSlash (s : String) : List String := splitSlashAux s.data []

/-- Does this entry carry the given name? -/
def entryNamed (n : String) : FSEntry → Bool
  | FSEntry.file m _ => m == n
  | FSEntry.dir m _ => m == n

/-- Resolve `working_dir / file_path` in the tree: follow each path
segment through directories; `none` models a path for which
`full_path.exists()` is false. -/
def resolveSegs : List FSEntry → List String → Option FSEntry
  | es, [s] => es.find? (entryNamed s)
  | es, s :: rest =>
      match es.find? (entryNamed s) with
      | some (FSEntry.dir _ es2) => resolveSegs es2 rest
      | _ => none
  | _, [] => none

/-- The per-path body of `read_file_contents`: a missing path is skipped;
a binary file (null byte in its first 8 KiB) yields the placeholder; a
text file yields its UTF-8 decoding, falling back to latin-1 when UTF-8
raises. A directory or an unreadable file raises inside the method body
and is absorbed by the enclosing handler, so it is skipped. -/
def readOne : Option FSEntry → Option String
  | some (FSEntry.file _ (some bytes)) =>
      if is_binary_file (some bytes) then some binaryPlaceholder
      else
        match utf8Decode bytes with
        | some cs => some (String.mk (univNewlines cs))
        | none => some (String.mk (univNewlines (latin1Decode bytes)))
  | _ => none

/-- Model of `FileTracker.read_file_contents`: resolve each requested path against
the working directory and record path ↦ content-or-placeholder, skipping
paths whose processing was absorbed by the error handlers. -/
def FileTracker.read_file_contents (t : FileTracker) (paths : List String) :
    List (String × String) :=
  paths.filterMap (fun p =>
    (readOne (resolveSegs t.working_dir (splitSlash p))).map (fun s => (p, s)))

/-- The `read_file_contents` method as a state transformer: it only reads
`self.working_dir`. -/
def FileTracker.read_file_contentsOp (t : FileTracker) (paths : List String) :
    FileTracker × List (String × String) :=
  (t, t.read_file_contents paths)

/-- Reachability of a file through the pruned traversal: the file is
listed (possibly through a chain of subdirectories none of which bears an
ignored name) and its own name does not end in an ignored extension.
The path argument is the accumulated root-relative path. -/
inductive ReachableFile : String → List FSEntry → String → Option (List Nat) → Prop where
  | here {pre : String} {entries : List FSEntry} {n : String}
      {c : Option (List Nat)}
      (hmem : FSEntry.file n c ∈ entries) (hskip : skipFile n = false) :
      ReachableFile pre entries (relPath pre n) c
  | deeper {pre : String} {entries : List FSEntry} {n : String}
      {es : List FSEntry} {p : String} {c : Option (List Nat)}
      (hmem : FSEntry.dir n es ∈ entries)
      (hig : ignore_patterns.contains n = false)
      (h : ReachableFile (relPath pre n) es p c) :
      ReachableFile pre entries p c

/-! ### Helper lemmas: hex rendering and digest shape -/

theorem hexChar_mem (n : Nat) : hexChar n ∈ hexChars := by
  have h : n % 16 < hexChars.length := Nat.mod_lt _ (by decide)
  unfold hexChar
  rw [List.getD_eq_getElem hexChars '0' h]
  exact List.getElem_mem h

theorem byteHex_mem {b : Nat} {c : Char} (h : c ∈ byteHex b) : c ∈ hexChars := by
  simp only [byteHex, List.mem_cons, List.mem_singleton, List.not_mem_nil,
    or_false] at h
  rcases h with rfl | rfl <;> exact hexChar_mem _

theorem flatten_byteHex_length (l : List Nat) :
    ((l.map byteHex).flatten).length = 2 * l.length := by
  induction l with
  | nil => rfl
  | cons b rest ih => simp [byteHex, ih]; ring

theorem flatten_byteHex_mem {l : List Nat} {c : Char}
    (h : c ∈ (l.map byteHex).flatten) : c ∈ hexChars := by
  rcases List.mem_flatten.mp h with ⟨cs, hcs, hc⟩
  rcases List.mem_map.mp hcs with ⟨b, _, rfl⟩
  exact byteHex_mem hc

theorem md5Digest_length (msg : List Nat) : (md5Digest msg).length = 16 := by
  simp [md5Digest, wordLE]

theorem md5Hex_length (msg : List Nat) : (md5Hex msg).length = 32 := by
  show (((md5Digest msg).map byteHex).flatten).length = 32
  rw [flatten_byteHex_length, md5Digest_length]

theorem md5Hex_ne_empty (msg : List Nat) : md5Hex msg ≠ "" := by
  intro h
  have := md5Hex_length msg
  rw [h] at this
  simp [String.length] at this

/-! ### Helper lemmas: association list lookup and the diff -/

theorem lookup_isSome_iff {l : List (String × String)} {k : String} :
    (l.lookup k).isSome = true ↔ k ∈ l.map Prod.fst := by
  induction l with
  | nil => simp [List.lookup]
  | cons kv rest ih =>
    obtain ⟨a, b⟩ := kv
    by_cases h : k = a
    · subst h
      simp [List.lookup]
    · have hba : (k == a) = false := by
        simp [h]
      simp [List.lookup, hba, ih, h]

theorem lookup_eq_none_iff {l : List (String × String)} {k : String} :
    l.lookup k = none ↔ k ∉ l.map Prod.fst := by
  rw [← lookup_isSome_iff]
  cases h : l.lookup k <;> simp

theorem mem_created_iff {initial final : List (String × String)} {k : String} :
    k ∈ (detectChangesOn initial final).1 ↔
      k ∈ final.map Prod.fst ∧ initial.lookup k = none := by
  simp [detectChangesOn, List.mem_filter, Option.isNone_iff_eq_none]

theorem mem_modified_iff {initial final : List (String × String)} {k : String} :
    k ∈ (detectChangesOn initial final).2 ↔
      ∃ v1 v2, initial.lookup k = some v1 ∧ final.lookup k = some v2 ∧
        v1 ≠ v2 := by
  simp only [detectChangesOn, List.mem_filter]
  cases h1 : initial.lookup k with
  | none =>
    constructor
    · rintro ⟨hk, hcond⟩
      simp at hcond
    · rintro ⟨w1, w2, hw1, hw2, hne⟩
      cases hw1
  | some v1 =>
    cases h2 : final.lookup k with
    | none =>
      constructor
      · rintro ⟨hk, hcond⟩
        simp at hcond
      · rintro ⟨w1, w2, hw1, hw2, hne⟩
        cases hw2
    | some v2 =>
      have hk : k ∈ final.map Prod.fst := by
        rw [← lookup_isSome_iff, h2]
        rfl
      constructor
      · rintro ⟨_, hcond⟩
        simp only [bne_iff_ne, ne_eq, decide_eq_true_eq] at hcond
        exact ⟨v1, v2, rfl, rfl, hcond⟩
      · rintro ⟨w1, w2, hw1, hw2, hne⟩
        cases hw1
        cases hw2
        refine ⟨hk, ?_⟩
        simp only [bne_iff_ne, ne_eq, decide_eq_true_eq]
        exact hne

theorem created_modified_disjoint {initial final : List (String × String)}
    {k : String} (hc : k ∈ (detectChangesOn initial final).1) :
    k ∉ (detectChangesOn initial final).2 := by
  intro hm
  rcases mem_modified_iff.mp hm with ⟨v1, v2, hv1, _, _⟩
  rcases mem_created_iff.mp hc with ⟨_, hnone⟩
  rw [hnone] at hv1
  cases hv1

/-! ### Helper lemmas: the snapshot walk -/

theorem mem_snapFiles_iff {pre p ck : String} {entries : List FSEntry} :
    (p, ck) ∈ snapFiles pre entries ↔
      ∃ n c, FSEntry.file n c ∈ entries ∧ skipFile n = false ∧
        p = relPath pre n ∧ ck = calculate_checksum c ∧
        calculate_checksum c ≠ "" := by
  induction entries with
  | nil => simp [snapFiles]
  | cons e rest ih =>
    cases e with
    | file n c =>
      simp only [snapFiles, List.mem_append, ih, List.mem_cons]
      constructor
      · rintro (hin | ⟨n', c', hmem, hsk, hp, hck, hne⟩)
        · by_cases hs : skipFile n
          · rw [if_pos hs] at hin
            cases hin
          · rw [if_neg hs] at hin
            by_cases he : calculate_checksum c = ""
            · rw [if_pos he] at hin
              cases hin
            · rw [if_neg he] at hin
              rcases List.mem_singleton.mp hin with hpair
              rcases Prod.mk.injEq .. ▸ hpair with ⟨hp, hck⟩
              exact ⟨n, c, Or.inl rfl, Bool.of_not_eq_true hs, hp, hck, he⟩
        · exact ⟨n', c', Or.inr hmem, hsk, hp, hck, hne⟩
      · rintro ⟨n', c', hhead | hmem, hsk, hp, hck, hne⟩
        · injection hhead with h1 h2
          subst h1
          subst h2
          refine Or.inl ?_
          rw [if_neg (by rw [hsk]; exact Bool.false_ne_true), if_neg hne]
          rw [hp, hck]
          exact List.mem_singleton.mpr rfl
        · exact Or.inr ⟨n', c', hmem, hsk, hp, hck, hne⟩
    | dir n es =>
      simp only [snapFiles, ih, List.mem_cons]
      constructor
      · rintro ⟨n', c', hmem, hsk, hp, hck, hne⟩
        exact ⟨n', c', Or.inr hmem, hsk, hp, hck, hne⟩
      · rintro ⟨n', c', hhead | hmem, hsk, hp, hck, hne⟩
        · cases hhead
        · exact ⟨n', c', hmem, hsk, hp, hck, hne⟩

theorem mem_walkSubdirs_iff {pre p ck : String} {entries : List FSEntry} :
    (p, ck) ∈ walkSubdirs pre entries ↔
      ∃ n es, FSEntry.dir n es ∈ entries ∧
        ignore_patterns.contains n = false ∧
        (p, ck) ∈ snapshotWalk (relPath pre n) es := by
  induction entries with
  | nil => simp [walkSubdirs]
  | cons e rest ih =>
    cases e with
    | file n c =>
      simp only [walkSubdirs, ih, List.mem_cons]
      constructor
      · rintro ⟨n', es', hmem, hig, hmem2⟩
        exact ⟨n', es', Or.inr hmem, hig, hmem2⟩
      · rintro ⟨n', es', hhead | hmem, hig, hmem2⟩
        · cases hhead
        · exact ⟨n', es', hmem, hig, hmem2⟩
    | dir n es =>
      simp only [walkSubdirs, List.mem_append, ih, List.mem_cons]
      constructor
      · rintro (hin | ⟨n', es', hmem, hig, hmem2⟩)
        · by_cases hg : ignore_patterns.contains n
          · rw [if_pos hg] at hin
            cases hin
          · rw [if_neg hg] at hin
            exact ⟨n, es, Or.inl rfl, Bool.of_not_eq_true hg, hin⟩
        · exact ⟨n', es', Or.inr hmem, hig, hmem2⟩
      · rintro ⟨n', es', hhead | hmem, hig, hmem2⟩
        · injection hhead with h1 h2
          subst h1
          subst h2
          refine Or.inl ?_
          rw [if_neg (by rw [hig]; exact Bool.false_ne_true)]
          exact hmem2
        · exact Or.inr ⟨n', es', hmem, hig, hmem2⟩

theorem sizeOf_subdir_lt {n : String} {es entries : List FSEntry}
    (h : FSEntry.dir n es ∈ entries) : sizeOf es < sizeOf entries := by
  have h1 := List.sizeOf_lt_of_mem h
  have h2 : sizeOf (FSEntry.dir n es) = 1 + sizeOf n + sizeOf es := by
    simp
  omega

theorem mem_snapshotWalk_iff_fuel :
    ∀ (fuel : Nat) (entries : List FSEntry), sizeOf entries ≤ fuel →
      ∀ (pre p ck : String),
        ((p, ck) ∈ snapshotWalk pre entries ↔
          ∃ c, ReachableFile pre entries p c ∧ calculate_checksum c = ck ∧
            ck ≠ "") := by
  intro fuel
  induction fuel with
  | zero =>
    intro entries hle
    exfalso
    cases entries with
    | nil => simp at hle
    | cons e rest => simp at hle
  | succ fuel ih =>
    intro entries hle pre p ck
    constructor
    · intro hmem
      simp only [snapshotWalk] at hmem
      rcases List.mem_append.mp hmem with hf | hd
      · rcases mem_snapFiles_iff.mp hf with ⟨n, c, hm, hsk, hp, hck, hne⟩
        subst hp
        refine ⟨c, ReachableFile.here hm hsk, hck.symm, ?_⟩
        rw [hck]
        exact hne
      · rcases mem_walkSubdirs_iff.mp hd with ⟨n, es, hm, hig, hmem2⟩
        have hes : sizeOf es ≤ fuel := by
          have := sizeOf_subdir_lt hm
          omega
        rcases (ih es hes (relPath pre n) p ck).mp hmem2 with ⟨c, hr, hck, hne⟩
        exact ⟨c, ReachableFile.deeper hm hig hr, hck, hne⟩
    · rintro ⟨c, hr, hck, hne⟩
      simp only [snapshotWalk]
      cases hr with
      | here hm hsk =>
        refine List.mem_append.mpr (Or.inl ?_)
        refine mem_snapFiles_iff.mpr ⟨_, c, hm, hsk, rfl, hck.symm, ?_⟩
        rw [hck]
        exact hne
      | @deeper _ _ n es _ _ hm hig hr2 =>
        refine List.mem_append.mpr (Or.inr ?_)
        have hes : sizeOf es ≤ fuel := by
          have := sizeOf_subdir_lt hm
          omega
        exact mem_walkSubdirs_iff.mpr
          ⟨n, es, hm, hig, (ih es hes _ p ck).mpr ⟨c, hr2, hck, hne⟩⟩

theorem mem_snapshot_iff (t : FileTracker) (p ck : String) :
    (p, ck) ∈ t.snapshot ↔
      ∃ c, ReachableFile "" t.working_dir p c ∧ calculate_checksum c = ck ∧
        ck ≠ "" :=
  mem_snapshotWalk_iff_fuel (sizeOf t.working_dir) t.working_dir le_rfl "" p ck

/-! ### Helper lemmas: content reading -/

theorem lookup_filterMap_pair (g : String → Option String)
    (paths : List String) (p : String) :
    (paths.filterMap (fun q => (g q).map (fun s => (q, s)))).lookup p =
      if p ∈ paths then g p else none := by
  induction paths with
  | nil => simp
  | cons q rest ih =>
    by_cases hpq : p = q
    · subst hpq
      cases hg : g p with
      | none =>
        simp only [List.filterMap_cons, hg, Option.map_none', ih, ite_self]
      | some s =>
        simp only [List.filterMap_cons, hg, Option.map_some']
        rw [if_pos (List.mem_cons_self p rest)]
        simp [List.lookup]
    · have hba : (p == q) = false := by
        simp [hpq]
      cases hg : g q with
      | none =>
        simp only [List.filterMap_cons, hg, Option.map_none', ih]
        simp [List.mem_cons, hpq]
      | some s =>
        simp only [List.filterMap_cons, hg, Option.map_some']
        simp [List.lookup, hba, ih, List.mem_cons, hpq]

theorem lookup_read_file_contents (t : FileTracker) (paths : List String)
    (p : String) :
    (t.read_file_contents paths).lookup p =
      if p ∈ paths then readOne (resolveSegs t.working_dir (splitSlash p))
      else none :=
  lookup_filterMap_pair _ paths p

theorem mem_read_file_contents {t : FileTracker} {paths : List String}
    {p s : String} (h : (p, s) ∈ t.read_file_contents paths) : p ∈ paths := by
  rcases List.mem_filterMap.mp h with ⟨q, hq, hsome⟩
  obtain ⟨s', hs', heq⟩ := Option.map_eq_some'.mp hsome
  cases heq
  exact hq

theorem detectChangesOn_nil_initial (s : List (String × String)) :
    detectChangesOn [] s = (s.map Prod.fst, []) := by
  unfold detectChangesOn
  refine Prod.ext ?_ ?_
  · simp [List.lookup]
  · simp [List.lookup]

/-! ### The claims -/

/-- C1: for every pair of tracker states, `detect_changes` returns as
created exactly the keys of the final snapshot that are not keys of the
initial snapshot, as modified exactly the keys of both snapshots whose
stored fingerprints differ, and no path occurs in both lists. -/
theorem detect_changes_created_modified_exact (t : FileTracker) (k : String) :
    (k ∈ t.detect_changes.1 ↔
      k ∈ t.final_state.map Prod.fst ∧ t.initial_state.lookup k = none) ∧
    (k ∈ t.detect_changes.2 ↔
      ∃ v1 v2, t.initial_state.lookup k = some v1 ∧
        t.final_state.lookup k = some v2 ∧ v1 ≠ v2) ∧
    ¬(k ∈ t.detect_changes.1 ∧ k ∈ t.detect_changes.2) :=
  ⟨mem_created_iff, mem_modified_iff,
   fun h => created_modified_disjoint h.1 h.2⟩

/-- Witness for C1 at a concrete tracker state: `"c"` (new key) is
created and `"b"` (key of both with differing fingerprints) is modified. -/
theorem detect_changes_created_modified_exact_witness :
    "c" ∈ (FileTracker.detect_changes
      ⟨[], [("a", "1"), ("b", "2")], [("b", "3"), ("c", "4")]⟩).1 ∧
    "b" ∈ (FileTracker.detect_changes
      ⟨[], [("a", "1"), ("b", "2")], [("b", "3"), ("c", "4")]⟩).2 :=
  ⟨(detect_changes_created_modified_exact
      ⟨[], [("a", "1"), ("b", "2")], [("b", "3"), ("c", "4")]⟩ "c").1.mpr
      (by decide),
   ((detect_changes_created_modified_exact
      ⟨[], [("a", "1"), ("b", "2")], [("b", "3"), ("c", "4")]⟩ "b").2.1.mpr
      ⟨"2", "3", by decide, by decide, by decide⟩)⟩

/-- C2: a path present in the initial snapshot but absent from the final
snapshot (a deleted file) is reported neither as created nor as
modified. -/
theorem deleted_paths_unreported (t : FileTracker) (k : String)
    (hin : k ∈ t.initial_state.map Prod.fst)
    (hout : k ∉ t.final_state.map Prod.fst) :
    k ∉ t.detect_changes.1 ∧ k ∉ t.detect_changes.2 := by
  constructor
  · intro hc
    exact hout (mem_created_iff.mp hc).1
  · intro hm
    rcases mem_modified_iff.mp hm with ⟨v1, v2, _, hv2, _⟩
    refine hout (lookup_isSome_iff.mp ?_)
    rw [hv2]
    rfl

/-- Witness for C2: a concrete deleted file is in neither list. -/
theorem deleted_paths_unreported_witness :
    "gone.txt" ∉ (FileTracker.detect_changes
      ⟨[], [("gone.txt", "1")], [("kept.txt", "2")]⟩).1 ∧
    "gone.txt" ∉ (FileTracker.detect_changes
      ⟨[], [("gone.txt", "1")], [("kept.txt", "2")]⟩).2 :=
  deleted_paths_unreported ⟨[], [("gone.txt", "1")], [("kept.txt", "2")]⟩
    "gone.txt" (by decide) (by decide)

/-- C3: taking the final snapshot on a freshly constructed tracker (no
initial snapshot was ever taken, so the initial state is the empty
mapping, and no error occurs since every operation is total) makes
`detect_changes` report every key of the final snapshot as created and
nothing as modified. -/
theorem final_snapshot_without_initial_all_created (wd : List FSEntry) :
    ((FileTracker.init wd).take_final_snapshot).detect_changes =
      ((((FileTracker.init wd).take_final_snapshot).final_state).map
        Prod.fst, []) :=
  detectChangesOn_nil_initial _

/-- C4: a pair `(p, ck)` is in a snapshot exactly when `p` is the
root-relative path of a file reachable through directories none of which
bears a name in the ignore set (so no snapshot path has an ignored
ancestor directory at any depth), whose own name does not end in `.pyc`,
and whose checksum computed successfully — i.e. all other readable files
are included, keyed by root-relative path. -/
theorem snapshot_mem_iff_reachable (t : FileTracker) (p ck : String) :
    (p, ck) ∈ t.snapshot ↔
      ∃ c, ReachableFile "" t.working_dir p c ∧
        calculate_checksum c = ck ∧ ck ≠ "" :=
  mem_snapshot_iff t p ck

/-- Witness for C4: a concrete readable file next to an ignored
directory is in the snapshot. -/
theorem snapshot_mem_iff_reachable_witness :
    ("keep.txt", calculate_checksum (some [104, 105])) ∈
      (FileTracker.init [FSEntry.file "keep.txt" (some [104, 105]),
        FSEntry.dir ".git" [FSEntry.file "config" (some [3])]]).snapshot :=
  (snapshot_mem_iff_reachable
      (FileTracker.init [FSEntry.file "keep.txt" (some [104, 105]),
        FSEntry.dir ".git" [FSEntry.file "config" (some [3])]])
      "keep.txt" (calculate_checksum (some [104, 105]))).mpr
    ⟨some [104, 105],
     ReachableFile.here (List.mem_cons_self _ _) (by decide), rfl,
     md5Hex_ne_empty _⟩

/-- C5: the fingerprint is a function of the byte content alone (two
files with identical content, whatever their names or locations, get
identical digests), and every successful digest is a 32-character string
of lowercase hexadecimal digit characters. -/
theorem checksum_content_function_and_hex_format (content : List Nat)
    (file1 file2 : String × Option (List Nat))
    (h1 : file1.2 = some content) (h2 : file2.2 = some content) :
    calculate_checksum file1.2 = calculate_checksum file2.2 ∧
    (calculate_checksum (some content)).length = 32 ∧
    ∀ ch ∈ (calculate_checksum (some content)).data, ch ∈ hexChars := by
  refine ⟨by rw [h1, h2], md5Hex_length content, ?_⟩
  intro ch hch
  exact flatten_byteHex_mem hch

/-- Witness for C5: the digest of a concrete three-byte content is 32
characters long, independently of the file's name. -/
theorem checksum_content_function_and_hex_format_witness :
    calculate_checksum (("a.txt", some [97, 98, 99]) :
        String × Option (List Nat)).2 =
      calculate_checksum (("dir/b.bin", some [97, 98, 99]) :
        String × Option (List Nat)).2 ∧
    (calculate_checksum (some [97, 98, 99])).length = 32 :=
  ⟨(checksum_content_function_and_hex_format [97, 98, 99]
      ("a.txt", some [97, 98, 99]) ("dir/b.bin", some [97, 98, 99])
      rfl rfl).1,
   (checksum_content_function_and_hex_format [97, 98, 99]
      ("a.txt", some [97, 98, 99]) ("dir/b.bin", some [97, 98, 99])
      rfl rfl).2.1⟩

/-- C6: a failed read yields the empty-string fingerprint instead of an
error, and the snapshot walk records only entries whose fingerprint is
non-empty, so every stored fingerprint is non-empty. -/
theorem snapshot_fingerprints_nonempty (pre p ck : String)
    (entries : List FSEntry) (h : (p, ck) ∈ snapshotWalk pre entries) :
    calculate_checksum none = "" ∧ ck ≠ "" := by
  refine ⟨rfl, ?_⟩
  rcases (mem_snapshotWalk_iff_fuel (sizeOf entries) entries le_rfl
    pre p ck).mp h with ⟨c, _, _, hne⟩
  exact hne

/-- Witness for C6 at a concrete one-file tree. -/
theorem snapshot_fingerprints_nonempty_witness :
    calculate_checksum none = "" ∧ calculate_checksum (some [1]) ≠ "" :=
  snapshot_fingerprints_nonempty "" "a" (calculate_checksum (some [1]))
    [FSEntry.file "a" (some [1])] (by decide)

/-- C7: a requested path resolving to a readable file with a null byte in
its first 8 KiB is mapped to exactly the fixed placeholder string when
requested, and any value the result maps it to is that placeholder — the
file's actual bytes are never returned. -/
theorem binary_file_placeholder (t : FileTracker) (paths : List String)
    (p n : String) (bytes : List Nat)
    (hres : resolveSegs t.working_dir (splitSlash p) =
      some (FSEntry.file n (some bytes)))
    (hbin : is_binary_file (some bytes) = true) :
    (p ∈ paths →
      (t.read_file_contents paths).lookup p = some binaryPlaceholder) ∧
    ∀ s, (t.read_file_contents paths).lookup p = some s →
      s = binaryPlaceholder := by
  have hro : readOne (resolveSegs t.working_dir (splitSlash p)) =
      some binaryPlaceholder := by
    rw [hres]
    show (if is_binary_file (some bytes) = true then some binaryPlaceholder
      else _) = some binaryPlaceholder
    rw [if_pos hbin]
  constructor
  · intro hp
    rw [lookup_read_file_contents, if_pos hp, hro]
  · intro s hs
    rw [lookup_read_file_contents] at hs
    by_cases hp : p ∈ paths
    · rw [if_pos hp, hro] at hs
      exact (Option.some.inj hs).symm
    · rw [if_neg hp] at hs
      exact Option.noConfusion hs

/-- Witness for C7: a concrete binary file gets the placeholder. -/
theorem binary_file_placeholder_witness :
    ((FileTracker.init [FSEntry.file "b.bin" (some [0, 1, 2])]).read_file_contents
      ["b.bin"]).lookup "b.bin" = some binaryPlaceholder :=
  (binary_file_placeholder
    (FileTracker.init [FSEntry.file "b.bin" (some [0, 1, 2])])
    ["b.bin"] "b.bin" "b.bin" [0, 1, 2] rfl rfl).1 (by decide)

/-- C8: the keys of `read_file_contents` are a subset of the requested
paths; a path that does not resolve (missing file) or resolves to an
unreadable file is absent from the result; the operation is a total
function of its inputs, so such conditions never raise. -/
theorem read_contents_keys_subset_and_omissions (t : FileTracker)
    (paths : List String) :
    (∀ p s, (p, s) ∈ t.read_file_contents paths → p ∈ paths) ∧
    (∀ p, resolveSegs t.working_dir (splitSlash p) = none →
      (t.read_file_contents paths).lookup p = none) ∧
    (∀ p n, resolveSegs t.working_dir (splitSlash p) =
        some (FSEntry.file n none) →
      (t.read_file_contents paths).lookup p = none) := by
  refine ⟨fun p s h => mem_read_file_contents h, ?_, ?_⟩
  · intro p hres
    rw [lookup_read_file_contents, hres]
    have h0 : readOne (none : Option FSEntry) = none := rfl
    rw [h0, ite_self]
  · intro p n hres
    rw [lookup_read_file_contents, hres]
    have h0 : readOne (some (FSEntry.file n none)) = none := rfl
    rw [h0, ite_self]

/-- Witness for C8: a missing path and an unreadable file are both
absent from a concrete result. -/
theorem read_contents_keys_subset_and_omissions_witness :
    ((FileTracker.init [FSEntry.file "u.txt" none]).read_file_contents
      ["missing.txt", "u.txt"]).lookup "missing.txt" = none ∧
    ((FileTracker.init [FSEntry.file "u.txt" none]).read_file_contents
      ["missing.txt", "u.txt"]).lookup "u.txt" = none :=
  ⟨(read_contents_keys_subset_and_omissions
      (FileTracker.init [FSEntry.file "u.txt" none])
      ["missing.txt", "u.txt"]).2.1 "missing.txt" rfl,
   (read_contents_keys_subset_and_omissions
      (FileTracker.init [FSEntry.file "u.txt" none])
      ["missing.txt", "u.txt"]).2.2 "u.txt" "u.txt" rfl⟩

/-- C9: `snapshot` returns a fresh mapping and leaves the tracker state
unchanged; each capture operation replaces only its own stored snapshot;
diffing and content reading leave the whole state unchanged. -/
theorem tracker_operations_frame (t : FileTracker) (paths : List String) :
    t.snapshotOp.1 = t ∧
    (t.take_initial_snapshot.working_dir = t.working_dir ∧
      t.take_initial_snapshot.final_state = t.final_state ∧
      t.take_initial_snapshot.initial_state = t.snapshot) ∧
    (t.take_final_snapshot.working_dir = t.working_dir ∧
      t.take_final_snapshot.initial_state = t.initial_state ∧
      t.take_final_snapshot.final_state = t.snapshot) ∧
    t.detect_changesOp.1 = t ∧
    (t.read_file_contentsOp paths).1 = t :=
  ⟨rfl, ⟨rfl, rfl, rfl⟩, ⟨rfl, rfl, rfl⟩, rfl, rfl⟩

/-- C10: the ignore-name set prunes only directories: a regular file
named `.DS_Store` is included in the snapshot with its fingerprint,
since the only file-level exclusion is the `.pyc` name suffix (a
directory of the same name alongside it is pruned). -/
theorem ignored_name_file_still_included :
    (".DS_Store", calculate_checksum (some [104, 105])) ∈
      (FileTracker.init [FSEntry.file ".DS_Store" (some [104, 105]),
        FSEntry.dir ".DS_Store" [FSEntry.file "x" (some [1])]]).snapshot ∧
    calculate_checksum (some [104, 105]) ≠ "" := by
  constructor
  · decide
  · exact md5Hex_ne_empty _
